import Mathlib

/-!
Verification of the Web-Skyling template store (`src/server.js`).

The store persists two relations backed by Postgres:

* `web_skyling_templates (id SERIAL PRIMARY KEY, name TEXT UNIQUE NOT NULL,
  data JSONB NOT NULL, created_at TIMESTAMP DEFAULT CURRENT_TIMESTAMP)`
* `web_skyling_config (key TEXT PRIMARY KEY, value TEXT)`

and exposes six operations through HTTP endpoints:

* `GET  /api/templates`          — List()
* `POST /api/templates`          — Upsert(name, data)
* `PUT  /api/templates/:oldName` — Rename(oldName, newName, data)
* `DELETE /api/templates/:name`  — Delete(name)
* `GET  /api/defaults`           — GetConfig()
* `PUT  /api/config`             — SetConfig(key, value)

The embedding below models the table contents as Lean lists, the SQL
statements as list transformations, `SERIAL` id allocation as a counter
`nextId`, timestamps as naturals passed in as `now`, and the `try/catch`
wrapper that turns any infrastructure failure into a 500 response as a
Boolean `avail` parameter: when `avail = false` every query fails and the
endpoint answers `storeUnavailable`, leaving the state unchanged (single
statements and rolled-back transactions alike).  JavaScript truthiness of
the request-body strings (`if (!name)`, `newName && ...`, `newName ||
oldName`) is modelled by comparison with the empty string, which is the
only falsy string; an omitted `newName` behaves identically to `""` in
this code, and an omitted config `value` is stored as SQL `NULL`, hence
`value : Option String`.
-/

namespace WebSkyling

/-- A row of `web_skyling_templates`. -/
structure Template where
  id : Nat
  name : String
  data : String
  createdAt : Nat
deriving DecidableEq, Repr

/-- A row of `web_skyling_config`.  The `value` column is nullable text:
the pg driver stores an omitted JS `value` as SQL `NULL`. -/
structure ConfigEntry where
  key : String
  value : Option String
deriving DecidableEq, Repr

/-- The persistent state: both table contents plus the `SERIAL` sequence
counter that backs the `id` column. -/
structure Store where
  templates : List Template
  config : List ConfigEntry
  nextId : Nat
deriving DecidableEq, Repr

/-- A freshly created database: both tables empty, sequence at 1. -/
def Store.empty : Store := ⟨[], [], 1⟩

/-- The error kinds the endpoints surface: 400 on a missing identifier,
404 on rename of a missing template, 400 on a rename collision, and 500
when any query against the store fails. -/
inductive StoreError
  | validationError
  | notFound
  | nameCollision
  | storeUnavailable
deriving DecidableEq, Repr

/-- `SELECT * FROM web_skyling_templates WHERE name = $1` returns a row. -/
def Store.existsName (s : Store) (n : String) : Prop :=
  ∃ t ∈ s.templates, t.name = n

instance (s : Store) (n : String) : Decidable (s.existsName n) :=
  inferInstanceAs (Decidable (∃ t ∈ s.templates, t.name = n))

/-- `SELECT * FROM web_skyling_config` ... `WHERE key` matches. -/
def Store.hasKey (s : Store) (k : String) : Prop :=
  ∃ e ∈ s.config, e.key = k

instance (s : Store) (k : String) : Decidable (s.hasKey k) :=
  inferInstanceAs (Decidable (∃ e ∈ s.config, e.key = k))

/-- `ORDER BY created_at DESC`: most recent first. -/
def createdDesc (a b : Template) : Prop := b.createdAt ≤ a.createdAt

instance : DecidableRel createdDesc := fun a b =>
  inferInstanceAs (Decidable (b.createdAt ≤ a.createdAt))

instance : IsTotal Template createdDesc :=
  ⟨fun a b => (le_total b.createdAt a.createdAt).imp id id⟩

instance : IsTrans Template createdDesc :=
  ⟨fun _ _ _ h1 h2 => le_trans h2 h1⟩

/-- `SELECT * FROM web_skyling_templates ORDER BY created_at DESC`. -/
def sortDesc (ts : List Template) : List Template :=
  ts.insertionSort createdDesc

/-- `UPDATE web_skyling_templates SET data = $2` for the row `WHERE name`
matches (the `ON CONFLICT (name) DO UPDATE SET data = $2` arm of the
upsert): everything but `data` is untouched. -/
def upsertRow (name data : String) (ts : List Template) : List Template :=
  ts.map fun t => if t.name = name then { t with data := data } else t

/-- `UPDATE web_skyling_templates SET name = $1, data = $2 WHERE name = $3`:
`id` and `created_at` are untouched. -/
def renameRow (oldName finalName data : String) (ts : List Template) :
    List Template :=
  ts.map fun t =>
    if t.name = oldName then { t with name := finalName, data := data } else t

/-- `GET /api/templates` (server.js:175-183): select all rows ordered by
creation time descending; any query failure answers 500. -/
def listT (avail : Bool) (s : Store) :
    Store × Except StoreError (List Template) :=
  if avail then (s, .ok (sortDesc s.templates)) else (s, .error .storeUnavailable)

/-- `POST /api/templates` (server.js:185-203): reject an empty `name`
before touching the store; otherwise
`INSERT INTO web_skyling_templates (name, data) VALUES ($1, $2)
 ON CONFLICT (name) DO UPDATE SET data = $2`
— the insert arm draws a fresh serial `id` and stamps `created_at = now`,
the conflict arm replaces `data` in place (the serial is consumed either
way) — then return the full list ordered by creation time descending. -/
def upsert (avail : Bool) (now : Nat) (name data : String) (s : Store) :
    Store × Except StoreError (List Template) :=
  if name = "" then (s, .error .validationError)
  else if avail then
    let s' :=
      if s.existsName name then
        { s with templates := upsertRow name data s.templates,
                 nextId := s.nextId + 1 }
      else
        { s with
            templates := s.templates ++
              [{ id := s.nextId, name := name, data := data, createdAt := now }],
            nextId := s.nextId + 1 }
    (s', .ok (sortDesc s'.templates))
  else (s, .error .storeUnavailable)

/-- `PUT /api/templates/:oldName` (server.js:205-252), one transaction:
look up `oldName` (404 if absent); if a non-empty `newName` differs from
`oldName` and is already taken, 400 collision; otherwise update the row
to `newName || oldName` and the given `data`, commit, and return the full
ordered list.  Both failure paths `ROLLBACK`, mutating nothing. -/
def rename (avail : Bool) (oldName newName data : String) (s : Store) :
    Store × Except StoreError (List Template) :=
  if avail then
    if ¬ s.existsName oldName then (s, .error .notFound)
    else if newName ≠ "" ∧ newName ≠ oldName ∧ s.existsName newName then
      (s, .error .nameCollision)
    else
      let finalName := if newName = "" then oldName else newName
      let s' := { s with templates := renameRow oldName finalName data s.templates }
      (s', .ok (sortDesc s'.templates))
  else (s, .error .storeUnavailable)

/-- `DELETE /api/templates/:name` (server.js:254-264):
`DELETE FROM web_skyling_templates WHERE name = $1` — no existence check,
absence deletes nothing — then return the full ordered list. -/
def deleteT (avail : Bool) (name : String) (s : Store) :
    Store × Except StoreError (List Template) :=
  if avail then
    let s' := { s with templates := s.templates.filter fun t => t.name ≠ name }
    (s', .ok (sortDesc s'.templates))
  else (s, .error .storeUnavailable)

/-- `GET /api/defaults` (server.js:138-154): select every config row and
build the key→value object returned to the caller. -/
def getConfig (avail : Bool) (s : Store) :
    Store × Except StoreError (List (String × Option String)) :=
  if avail then (s, .ok (s.config.map fun e => (e.key, e.value)))
  else (s, .error .storeUnavailable)

/-- `PUT /api/config` (server.js:157-171): reject an empty `key` before
touching the store; otherwise
`INSERT INTO web_skyling_config (key, value) VALUES ($1, $2)
 ON CONFLICT (key) DO UPDATE SET value = $2`. -/
def setConfig (avail : Bool) (k : String) (v : Option String) (s : Store) :
    Store × Except StoreError (String × Option String) :=
  if k = "" then (s, .error .validationError)
  else if avail then
    let s' :=
      if s.hasKey k then
        { s with config := s.config.map fun e =>
            if e.key = k then { e with value := v } else e }
      else
        { s with config := s.config ++ [{ key := k, value := v }] }
    (s', .ok (k, v))
  else (s, .error .storeUnavailable)

/-- The mapping `GET /api/defaults` answers, looked up at one key: the
handler assigns `config[row.key] = row.value` row by row, so for a key
the last row wins; `none` means the key is absent from the object. -/
def configLookup (s : Store) (k : String) : Option (Option String) :=
  (s.config.reverse.find? fun e => e.key = k).map (·.value)

/-- The store states reachable from a fresh database through the six
endpoint operations (with arbitrary availability at each step). -/
inductive Reachable : Store → Prop
  | init : Reachable Store.empty
  | listStep (avail s) : Reachable s → Reachable (listT avail s).1
  | upsertStep (avail now name data s) :
      Reachable s → Reachable (upsert avail now name data s).1
  | renameStep (avail oldName newName data s) :
      Reachable s → Reachable (rename avail oldName newName data s).1
  | deleteStep (avail name s) :
      Reachable s → Reachable (deleteT avail name s).1
  | getConfigStep (avail s) : Reachable s → Reachable (getConfig avail s).1
  | setConfigStep (avail k v s) :
      Reachable s → Reachable (setConfig avail k v s).1

/-- The uniqueness invariant: at most one template per name (the
`name TEXT UNIQUE` constraint) and at most one config entry per key (the
`key TEXT PRIMARY KEY` constraint). -/
def Inv (s : Store) : Prop :=
  (s.templates.map (fun t => t.name)).Nodup ∧
  (s.config.map (fun e => e.key)).Nodup

/-- Every id handed out so far is below the serial counter. -/
def IdBound (s : Store) : Prop :=
  ∀ t ∈ s.templates, t.id < s.nextId

/-! ### Basic unfolding lemmas -/

lemma listT_fst (avail : Bool) (s : Store) : (listT avail s).1 = s := by
  cases avail <;> rfl

lemma getConfig_fst (avail : Bool) (s : Store) : (getConfig avail s).1 = s := by
  cases avail <;> rfl

lemma upsert_conflict (now : Nat) (name data : String) (s : Store)
    (hn : name ≠ "") (hex : s.existsName name) :
    upsert true now name data s =
      ({ s with templates := upsertRow name data s.templates,
                nextId := s.nextId + 1 },
       .ok (sortDesc (upsertRow name data s.templates))) := by
  simp only [upsert, if_neg hn, if_pos rfl, if_pos hex, if_true]

lemma upsert_insert (now : Nat) (name data : String) (s : Store)
    (hn : name ≠ "") (hex : ¬ s.existsName name) :
    upsert true now name data s =
      ({ s with
           templates := s.templates ++
             [{ id := s.nextId, name := name, data := data, createdAt := now }],
           nextId := s.nextId + 1 },
       .ok (sortDesc (s.templates ++
         [{ id := s.nextId, name := name, data := data, createdAt := now }]))) := by
  simp only [upsert, if_neg hn, if_pos rfl, if_neg hex, if_true]

/-- The final name written by a successful rename: `newName || oldName`. -/
def finalNameOf (oldName newName : String) : String :=
  if newName = "" then oldName else newName

lemma rename_ok (oldName newName data : String) (s : Store)
    (hold : s.existsName oldName)
    (hsc : newName = "" ∨ newName = oldName ∨ ¬ s.existsName newName) :
    rename true oldName newName data s =
      ({ s with templates :=
          renameRow oldName (finalNameOf oldName newName) data s.templates },
       .ok (sortDesc
          (renameRow oldName (finalNameOf oldName newName) data s.templates))) := by
  have hnc : ¬ (newName ≠ "" ∧ newName ≠ oldName ∧ s.existsName newName) := by
    rintro ⟨h1, h2, h3⟩
    rcases hsc with h | h | h
    · exact h1 h
    · exact h2 h
    · exact h h3
  simp only [rename, finalNameOf, if_pos rfl, if_neg (not_not_intro hold),
    if_neg hnc, if_true]

lemma deleteT_ok (name : String) (s : Store) :
    deleteT true name s =
      ({ s with templates := s.templates.filter fun t => t.name ≠ name },
       .ok (sortDesc (s.templates.filter fun t => t.name ≠ name))) := rfl

lemma setConfig_update (k : String) (v : Option String) (s : Store)
    (hk : k ≠ "") (hex : s.hasKey k) :
    setConfig true k v s =
      ({ s with config := s.config.map fun e =>
          if e.key = k then { e with value := v } else e },
       .ok (k, v)) := by
  simp only [setConfig, if_neg hk, if_pos rfl, if_pos hex, if_true]

lemma setConfig_insert (k : String) (v : Option String) (s : Store)
    (hk : k ≠ "") (hex : ¬ s.hasKey k) :
    setConfig true k v s =
      ({ s with config := s.config ++ [{ key := k, value := v }] },
       .ok (k, v)) := by
  simp only [setConfig, if_neg hk, if_pos rfl, if_neg hex, if_true]

/-! ### Name-level behaviour of the row updates -/

lemma names_upsertRow (name data : String) (ts : List Template) :
    (upsertRow name data ts).map (fun t => t.name) = ts.map (fun t => t.name) := by
  unfold upsertRow
  rw [List.map_map]
  refine List.map_congr_left fun t _ => ?_
  by_cases h : t.name = name <;> simp [h]

lemma names_renameRow (oldName finalName data : String) (ts : List Template) :
    (renameRow oldName finalName data ts).map (fun t => t.name) =
      (ts.map (fun t => t.name)).map
        (fun x => if x = oldName then finalName else x) := by
  unfold renameRow
  rw [List.map_map, List.map_map]
  refine List.map_congr_left fun t _ => ?_
  by_cases h : t.name = oldName <;> simp [h]

lemma existsName_iff_mem (s : Store) (n : String) :
    s.existsName n ↔ n ∈ s.templates.map (fun t => t.name) := by
  simp [Store.existsName, List.mem_map, eq_comm]

lemma hasKey_iff_mem (s : Store) (k : String) :
    s.hasKey k ↔ k ∈ s.config.map (fun e => e.key) := by
  simp [Store.hasKey, List.mem_map, eq_comm]

lemma nodup_map_rename {l : List String} (oldName finalName : String)
    (hl : l.Nodup) (hsc : finalName = oldName ∨ finalName ∉ l) :
    (l.map (fun x => if x = oldName then finalName else x)).Nodup := by
  rcases hsc with h | h
  · subst h
    have : (l.map (fun x => if x = finalName then finalName else x)) = l := by
      refine Eq.trans (List.map_congr_left fun x _ => ?_) (List.map_id l)
      by_cases hx : x = finalName <;> simp [hx]
    rwa [this]
  · refine hl.map_on fun x hx y hy hxy => ?_
    by_cases h1 : x = oldName <;> by_cases h2 : y = oldName
    · exact h1.trans h2.symm
    · rw [if_pos h1, if_neg h2] at hxy
      exact absurd (hxy.symm ▸ hy) h
    · rw [if_neg h1, if_pos h2] at hxy
      exact absurd (hxy ▸ hx) h
    · rwa [if_neg h1, if_neg h2] at hxy

/-! ### Invariant preservation -/

lemma inv_listT (avail : Bool) (s : Store) (h : Inv s) : Inv (listT avail s).1 := by
  rwa [listT_fst]

lemma inv_getConfig (avail : Bool) (s : Store) (h : Inv s) :
    Inv (getConfig avail s).1 := by
  rwa [getConfig_fst]

lemma inv_upsert (avail : Bool) (now : Nat) (name data : String) (s : Store)
    (h : Inv s) : Inv (upsert avail now name data s).1 := by
  by_cases hn : name = ""
  · simpa [upsert, hn] using h
  cases avail
  · simpa [upsert, hn] using h
  by_cases hex : s.existsName name
  · rw [upsert_conflict now name data s hn hex]
    exact ⟨by rw [names_upsertRow]; exact h.1, h.2⟩
  · rw [upsert_insert now name data s hn hex]
    refine ⟨?_, h.2⟩
    rw [List.map_append]
    simp only [List.nodup_append, List.map_cons, List.map_nil]
    exact ⟨h.1, List.nodup_singleton _,
      by simpa [List.disjoint_singleton] using
        fun hmem => hex ((existsName_iff_mem s name).2 hmem)⟩

lemma inv_rename (avail : Bool) (oldName newName data : String) (s : Store)
    (h : Inv s) : Inv (rename avail oldName newName data s).1 := by
  cases avail
  · simpa [rename] using h
  by_cases hold : s.existsName oldName
  · by_cases hnc : newName ≠ "" ∧ newName ≠ oldName ∧ s.existsName newName
    · simp only [rename, if_pos rfl, if_neg (not_not_intro hold), if_pos hnc, if_true]
      exact h
    · have hsc : newName = "" ∨ newName = oldName ∨ ¬ s.existsName newName := by
        by_cases h1 : newName = ""
        · exact Or.inl h1
        by_cases h2 : newName = oldName
        · exact Or.inr (Or.inl h2)
        · exact Or.inr (Or.inr fun h3 => hnc ⟨h1, h2, h3⟩)
      rw [rename_ok oldName newName data s hold hsc]
      refine ⟨?_, h.2⟩
      rw [names_renameRow]
      refine nodup_map_rename oldName (finalNameOf oldName newName) h.1 ?_
      rcases hsc with h1 | h2 | h3
      · exact Or.inl (by simp [finalNameOf, h1])
      · exact Or.inl (by simp [finalNameOf, h2])
      · by_cases h1 : newName = ""
        · exact Or.inl (by simp [finalNameOf, h1])
        · refine Or.inr ?_
          simpa [finalNameOf, h1, existsName_iff_mem] using h3
  · simp only [rename, if_pos rfl, if_pos hold, if_true]
    exact h

lemma inv_deleteT (avail : Bool) (name : String) (s : Store)
    (h : Inv s) : Inv (deleteT avail name s).1 := by
  cases avail
  · simpa [deleteT] using h
  rw [deleteT_ok]
  exact ⟨(h.1.sublist ((List.filter_sublist s.templates).map _)), h.2⟩

lemma keys_setConfig_update (k : String) (v : Option String)
    (cfg : List ConfigEntry) :
    (cfg.map fun e => if e.key = k then { e with value := v } else e).map
        (fun e => e.key) =
      cfg.map (fun e => e.key) := by
  rw [List.map_map]
  refine List.map_congr_left fun e _ => ?_
  by_cases h : e.key = k <;> simp [h]

lemma inv_setConfig (avail : Bool) (k : String) (v : Option String) (s : Store)
    (h : Inv s) : Inv (setConfig avail k v s).1 := by
  by_cases hk : k = ""
  · simpa [setConfig, hk] using h
  cases avail
  · simpa [setConfig, hk] using h
  by_cases hex : s.hasKey k
  · rw [setConfig_update k v s hk hex]
    exact ⟨h.1, by rw [keys_setConfig_update]; exact h.2⟩
  · rw [setConfig_insert k v s hk hex]
    refine ⟨h.1, ?_⟩
    rw [List.map_append]
    simp only [List.nodup_append, List.map_cons, List.map_nil]
    exact ⟨h.2, List.nodup_singleton _,
      by simpa [List.disjoint_singleton] using
        fun hmem => hex ((hasKey_iff_mem s k).2 hmem)⟩

lemma idBound_upsert (avail : Bool) (now : Nat) (name data : String) (s : Store)
    (h : IdBound s) : IdBound (upsert avail now name data s).1 := by
  by_cases hn : name = ""
  · simpa [upsert, hn] using h
  cases avail
  · simpa [upsert, hn] using h
  by_cases hex : s.existsName name
  · rw [upsert_conflict now name data s hn hex]
    intro t ht
    simp only [upsertRow, List.mem_map] at ht
    obtain ⟨u, hu, hut⟩ := ht
    have hub := h u hu
    subst hut
    by_cases hun : u.name = name <;> simp [hun] <;> omega
  · rw [upsert_insert now name data s hn hex]
    intro t ht
    rcases List.mem_append.1 ht with hmem | hmem
    · exact Nat.lt_succ_of_lt (h t hmem)
    · simp only [List.mem_singleton] at hmem
      subst hmem
      exact Nat.lt_succ_self _

lemma idBound_rename (avail : Bool) (oldName newName data : String) (s : Store)
    (h : IdBound s) : IdBound (rename avail oldName newName data s).1 := by
  cases avail
  · simpa [rename] using h
  by_cases hold : s.existsName oldName
  · by_cases hnc : newName ≠ "" ∧ newName ≠ oldName ∧ s.existsName newName
    · simp only [rename, if_pos rfl, if_neg (not_not_intro hold), if_pos hnc, if_true]
      exact h
    · have hsc : newName = "" ∨ newName = oldName ∨ ¬ s.existsName newName := by
        by_cases h1 : newName = ""
        · exact Or.inl h1
        by_cases h2 : newName = oldName
        · exact Or.inr (Or.inl h2)
        · exact Or.inr (Or.inr fun h3 => hnc ⟨h1, h2, h3⟩)
      rw [rename_ok oldName newName data s hold hsc]
      intro t ht
      simp only [renameRow, List.mem_map] at ht
      obtain ⟨u, hu, hut⟩ := ht
      have hub := h u hu
      subst hut
      by_cases hun : u.name = oldName <;> simp [hun] <;> omega
  · simp only [rename, if_pos rfl, if_pos hold, if_true]
    exact h

lemma idBound_deleteT (avail : Bool) (name : String) (s : Store)
    (h : IdBound s) : IdBound (deleteT avail name s).1 := by
  cases avail
  · simpa [deleteT] using h
  rw [deleteT_ok]
  exact fun t ht => h t (List.mem_of_mem_filter ht)

lemma idBound_setConfig (avail : Bool) (k : String) (v : Option String)
    (s : Store) (h : IdBound s) : IdBound (setConfig avail k v s).1 := by
  by_cases hk : k = ""
  · simpa [setConfig, hk] using h
  cases avail
  · simpa [setConfig, hk] using h
  by_cases hex : s.hasKey k
  · rw [setConfig_update k v s hk hex]
    exact h
  · rw [setConfig_insert k v s hk hex]
    exact h

/-- Every reachable store state satisfies the uniqueness invariant and the
serial-counter bound. -/
lemma reachable_invariants (s : Store) (h : Reachable s) : Inv s ∧ IdBound s := by
  induction h with
  | init =>
      exact ⟨⟨List.nodup_nil, List.nodup_nil⟩, fun t ht => absurd ht (by simp [Store.empty])⟩
  | listStep avail s _ ih =>
      exact ⟨inv_listT avail s ih.1, by rw [listT_fst]; exact ih.2⟩
  | upsertStep avail now name data s _ ih =>
      exact ⟨inv_upsert avail now name data s ih.1,
        idBound_upsert avail now name data s ih.2⟩
  | renameStep avail oldName newName data s _ ih =>
      exact ⟨inv_rename avail oldName newName data s ih.1,
        idBound_rename avail oldName newName data s ih.2⟩
  | deleteStep avail name s _ ih =>
      exact ⟨inv_deleteT avail name s ih.1, idBound_deleteT avail name s ih.2⟩
  | getConfigStep avail s _ ih =>
      exact ⟨inv_getConfig avail s ih.1, by rw [getConfig_fst]; exact ih.2⟩
  | setConfigStep avail k v s _ ih =>
      exact ⟨inv_setConfig avail k v s ih.1, idBound_setConfig avail k v s ih.2⟩

/-! ### Row-update helpers -/

lemma countP_name_upsertRow (name data n : String) (ts : List Template) :
    (upsertRow name data ts).countP (fun t => t.name = n) =
      ts.countP (fun t => t.name = n) := by
  unfold upsertRow
  rw [List.countP_map]
  refine List.countP_congr fun t _ => ?_
  by_cases h : t.name = name <;> simp [Function.comp, h]

lemma countP_name_one_of_nodup {n : String} {ts : List Template}
    (hnd : (ts.map fun t => t.name).Nodup) (hex : ∃ t ∈ ts, t.name = n) :
    ts.countP (fun t => t.name = n) = 1 := by
  induction ts with
  | nil => simp at hex
  | cons t ts ih =>
    simp only [List.map_cons, List.nodup_cons] at hnd
    rw [List.countP_cons]
    by_cases h : t.name = n
    · have hz : ts.countP (fun t => t.name = n) = 0 := by
        rw [List.countP_eq_zero]
        intro a ha
        simp only [decide_eq_true_eq]
        intro han
        exact hnd.1 (List.mem_map.2 ⟨a, ha, han.trans h.symm⟩)
      simp [h, hz]
    · rcases hex with ⟨u, hu, hun⟩
      rcases List.mem_cons.1 hu with rfl | hu'
      · exact absurd hun h
      · simp [h, ih hnd.2 ⟨u, hu', hun⟩]

lemma upsertRow_data {name data : String} {ts : List Template} {t : Template}
    (ht : t ∈ upsertRow name data ts) (hn : t.name = name) : t.data = data := by
  simp only [upsertRow, List.mem_map] at ht
  obtain ⟨u, hu, rfl⟩ := ht
  by_cases h : u.name = name
  · simp [h]
  · rw [if_neg h] at hn
    exact absurd hn h

lemma upsertRow_src {name data : String} {ts : List Template} {t : Template}
    (ht : t ∈ upsertRow name data ts) :
    ∃ u ∈ ts, u.name = t.name ∧ u.createdAt = t.createdAt ∧ u.id = t.id := by
  simp only [upsertRow, List.mem_map] at ht
  obtain ⟨u, hu, rfl⟩ := ht
  refine ⟨u, hu, ?_, ?_, ?_⟩ <;> by_cases h : u.name = name <;> simp [h]

/-! ### Claim theorems -/

/-- C1: `Rename(oldName, newName, data)` fails with `notFound` when no
template named `oldName` exists, and fails with `nameCollision` when a
provided (non-empty) `newName` differs from `oldName` and a template
named `newName` already exists; both failure paths return the store state
completely unchanged, so the template named `oldName` (when present)
keeps its name, data and createdAt exactly. -/
theorem rename_failure_cases_no_mutation
    (s : Store) (oldName newName data : String) :
    (¬ s.existsName oldName →
      rename true oldName newName data s = (s, .error .notFound)) ∧
    (s.existsName oldName → newName ≠ "" → newName ≠ oldName →
      s.existsName newName →
      rename true oldName newName data s = (s, .error .nameCollision)) := by
  constructor
  · intro h
    simp only [rename, if_pos rfl, if_pos h, if_true]
  · intro h1 h2 h3 h4
    simp only [rename, if_pos rfl, if_neg (not_not_intro h1),
      if_pos (show newName ≠ "" ∧ newName ≠ oldName ∧ s.existsName newName from
        ⟨h2, h3, h4⟩), if_true]

theorem rename_failure_cases_no_mutation_witness :
    rename true "C" "nc" "d"
        ⟨[⟨1, "A", "x", 1⟩, ⟨2, "B", "y", 2⟩], [], 3⟩ =
      (⟨[⟨1, "A", "x", 1⟩, ⟨2, "B", "y", 2⟩], [], 3⟩, .error .notFound) ∧
    rename true "A" "B" "d"
        ⟨[⟨1, "A", "x", 1⟩, ⟨2, "B", "y", 2⟩], [], 3⟩ =
      (⟨[⟨1, "A", "x", 1⟩, ⟨2, "B", "y", 2⟩], [], 3⟩, .error .nameCollision) := by
  constructor
  · exact (rename_failure_cases_no_mutation _ "C" "nc" "d").1 (by decide)
  · exact (rename_failure_cases_no_mutation _ "A" "B" "d").2
      (by decide) (by decide) (by decide) (by decide)

/-- C2: a successful `Rename(oldName, newName, data)` on an existing
template named `oldName` gives that row the name `newName` when `newName`
is non-empty and keeps `oldName` when `newName` is empty/omitted
(`finalNameOf`), replaces its `data`, leaves `createdAt` (and `id`)
unchanged, and answers with the full updated list ordered by creation
time descending. -/
theorem rename_success_updates_row
    (s : Store) (oldName newName data : String) (t : Template)
    (ht : t ∈ s.templates) (hname : t.name = oldName)
    (hsc : newName = "" ∨ newName = oldName ∨ ¬ s.existsName newName) :
    { t with name := finalNameOf oldName newName, data := data }
        ∈ (rename true oldName newName data s).1.templates ∧
    (rename true oldName newName data s).2 =
      .ok (sortDesc (rename true oldName newName data s).1.templates) := by
  have hold : s.existsName oldName := ⟨t, ht, hname⟩
  rw [rename_ok oldName newName data s hold hsc]
  exact ⟨List.mem_map.2 ⟨t, ht, by rw [if_pos hname]⟩, rfl⟩

theorem rename_success_updates_row_witness :
    ({ id := 1, name := finalNameOf "A" "B", data := "d", createdAt := 5 } :
        Template) ∈
      (rename true "A" "B" "d" ⟨[⟨1, "A", "x", 5⟩], [], 2⟩).1.templates ∧
    (rename true "A" "B" "d" ⟨[⟨1, "A", "x", 5⟩], [], 2⟩).2 =
      .ok (sortDesc
        (rename true "A" "B" "d" ⟨[⟨1, "A", "x", 5⟩], [], 2⟩).1.templates) :=
  rename_success_updates_row ⟨[⟨1, "A", "x", 5⟩], [], 2⟩ "A" "B" "d"
    ⟨1, "A", "x", 5⟩ (by decide) rfl (Or.inr (Or.inr (by decide)))

lemma upsert_existsName (now : Nat) (name data : String) (s : Store)
    (hn : name ≠ "") : (upsert true now name data s).1.existsName name := by
  by_cases hex : s.existsName name
  · rw [upsert_conflict now name data s hn hex]
    obtain ⟨t, ht, htn⟩ := hex
    exact ⟨{ t with data := data }, List.mem_map.2 ⟨t, ht, by rw [if_pos htn]⟩, htn⟩
  · rw [upsert_insert now name data s hn hex]
    exact ⟨_, List.mem_append_right _ (List.mem_singleton.2 rfl), rfl⟩

lemma upsert_countP_one (now : Nat) (name data : String) (s : Store)
    (hn : name ≠ "") (hinv : (s.templates.map fun t => t.name).Nodup) :
    (upsert true now name data s).1.templates.countP
      (fun t => t.name = name) = 1 := by
  by_cases hex : s.existsName name
  · rw [upsert_conflict now name data s hn hex]
    dsimp only
    rw [countP_name_upsertRow]
    exact countP_name_one_of_nodup hinv hex
  · rw [upsert_insert now name data s hn hex]
    dsimp only
    rw [List.countP_append]
    have hz : s.templates.countP (fun t => t.name = name) = 0 := by
      rw [List.countP_eq_zero]
      intro a ha
      simp only [decide_eq_true_eq]
      exact fun han => hex ⟨a, ha, han⟩
    simp [hz]

/-- C3: `Upsert(name, d1)` then `Upsert(name, d2)` leaves exactly one
template named `name`; its data is `d2`; its createdAt was fixed by the
first call (the second call leaves every createdAt as the first call's
state had it), and the first call stamps `createdAt = now1` only in the
creation case — when `name` already existed, every surviving createdAt
comes from a pre-existing row. -/
theorem upsert_twice_unique_row
    (s : Store) (name d1 d2 : String) (now1 now2 : Nat)
    (hn : name ≠ "") (hinv : (s.templates.map fun t => t.name).Nodup) :
    ((upsert true now2 name d2 (upsert true now1 name d1 s).1).1.templates.countP
        (fun t => t.name = name) = 1) ∧
    (∀ t ∈ (upsert true now2 name d2 (upsert true now1 name d1 s).1).1.templates,
      t.name = name → t.data = d2) ∧
    (∀ t ∈ (upsert true now2 name d2 (upsert true now1 name d1 s).1).1.templates,
      t.name = name → ∃ t1 ∈ (upsert true now1 name d1 s).1.templates,
        t1.name = name ∧ t1.createdAt = t.createdAt) ∧
    (¬ s.existsName name →
      ∀ t ∈ (upsert true now1 name d1 s).1.templates, t.name = name →
        t.createdAt = now1) ∧
    (s.existsName name →
      ∀ t ∈ (upsert true now1 name d1 s).1.templates, t.name = name →
        ∃ t0 ∈ s.templates, t0.name = name ∧ t0.createdAt = t.createdAt) := by
  have hex1 := upsert_existsName now1 name d1 s hn
  have e2 := upsert_conflict now2 name d2 (upsert true now1 name d1 s).1 hn hex1
  refine ⟨?_, ?_, ?_, ?_, ?_⟩
  · rw [e2]
    dsimp only
    rw [countP_name_upsertRow]
    exact upsert_countP_one now1 name d1 s hn hinv
  · rw [e2]
    dsimp only
    exact fun t ht htn => upsertRow_data ht htn
  · rw [e2]
    dsimp only
    intro t ht htn
    obtain ⟨u, hu, hun, huc, _⟩ := upsertRow_src ht
    exact ⟨u, hu, hun.trans htn, huc⟩
  · intro hex t ht htn
    rw [upsert_insert now1 name d1 s hn hex] at ht
    dsimp only at ht
    rcases List.mem_append.1 ht with hmem | hmem
    · exact absurd ⟨t, hmem, htn⟩ hex
    · rw [List.mem_singleton.1 hmem]
  · intro hex t ht htn
    rw [upsert_conflict now1 name d1 s hn hex] at ht
    dsimp only at ht
    obtain ⟨u, hu, hun, huc, _⟩ := upsertRow_src ht
    exact ⟨u, hu, hun.trans htn, huc⟩

theorem upsert_twice_unique_row_witness :
    ((upsert true 7 "n" "d2" (upsert true 4 "n" "d1" Store.empty).1).1.templates.countP
        (fun t => t.name = "n") = 1) ∧
    (∀ t ∈ (upsert true 7 "n" "d2" (upsert true 4 "n" "d1" Store.empty).1).1.templates,
      t.name = "n" → t.data = "d2") ∧
    (∀ t ∈ (upsert true 7 "n" "d2" (upsert true 4 "n" "d1" Store.empty).1).1.templates,
      t.name = "n" → ∃ t1 ∈ (upsert true 4 "n" "d1" Store.empty).1.templates,
        t1.name = "n" ∧ t1.createdAt = t.createdAt) ∧
    (¬ Store.empty.existsName "n" →
      ∀ t ∈ (upsert true 4 "n" "d1" Store.empty).1.templates, t.name = "n" →
        t.createdAt = 4) ∧
    (Store.empty.existsName "n" →
      ∀ t ∈ (upsert true 4 "n" "d1" Store.empty).1.templates, t.name = "n" →
        ∃ t0 ∈ Store.empty.templates, t0.name = "n" ∧ t0.createdAt = t.createdAt) :=
  upsert_twice_unique_row Store.empty "n" "d1" "d2" 4 7 (by decide) (by decide)

/-- C4: each of the six operations preserves the uniqueness invariant (at
most one template per name, at most one config entry per key), so every
store state reachable from a fresh database satisfies it. -/
theorem ops_preserve_uniqueness :
    (∀ (avail : Bool) (s : Store), Inv s → Inv (listT avail s).1) ∧
    (∀ (avail : Bool) (now : Nat) (name data : String) (s : Store),
      Inv s → Inv (upsert avail now name data s).1) ∧
    (∀ (avail : Bool) (oldName newName data : String) (s : Store),
      Inv s → Inv (rename avail oldName newName data s).1) ∧
    (∀ (avail : Bool) (name : String) (s : Store),
      Inv s → Inv (deleteT avail name s).1) ∧
    (∀ (avail : Bool) (s : Store), Inv s → Inv (getConfig avail s).1) ∧
    (∀ (avail : Bool) (k : String) (v : Option String) (s : Store),
      Inv s → Inv (setConfig avail k v s).1) ∧
    (∀ s : Store, Reachable s → Inv s) :=
  ⟨inv_listT, inv_upsert, inv_rename, inv_deleteT, inv_getConfig,
   inv_setConfig, fun s h => (reachable_invariants s h).1⟩

theorem ops_preserve_uniqueness_witness :
    Inv (upsert true 1 "a" "d" Store.empty).1 ∧ Inv Store.empty :=
  ⟨ops_preserve_uniqueness.2.1 true 1 "a" "d" Store.empty
     ⟨List.nodup_nil, List.nodup_nil⟩,
   ops_preserve_uniqueness.2.2.2.2.2.2 Store.empty Reachable.init⟩

/-- C5: `List()` answers with every stored template (a permutation of the
table), ordered by creation time descending, with no pagination or bound;
in particular three templates created in order at times 1 < 2 < 3 come
back most recent first. -/
theorem list_returns_all_ordered_desc :
    (∀ s : Store, (listT true s).2 = .ok (sortDesc s.templates) ∧
      (sortDesc s.templates).Perm s.templates ∧
      (sortDesc s.templates).Sorted createdDesc) ∧
    (listT true (upsert true 3 "T3" "d3" (upsert true 2 "T2" "d2"
        (upsert true 1 "T1" "d1" Store.empty).1).1).1).2 =
      .ok [⟨3, "T3", "d3", 3⟩, ⟨2, "T2", "d2", 2⟩, ⟨1, "T1", "d1", 1⟩] :=
  ⟨fun _ => ⟨rfl, List.perm_insertionSort _ _, List.sorted_insertionSort _ _⟩,
   rfl⟩

/-- C6: `Delete(name)` removes every template with that name; when none
exists it succeeds, returning the state and the unchanged full list; and
deleting the same name twice is the same call result as deleting once. -/
theorem delete_removes_absent_noop_idempotent (s : Store) (name : String) :
    (∀ t ∈ (deleteT true name s).1.templates, t.name ≠ name) ∧
    (¬ s.existsName name →
      deleteT true name s = (s, .ok (sortDesc s.templates))) ∧
    deleteT true name (deleteT true name s).1 = deleteT true name s := by
  refine ⟨?_, ?_, ?_⟩
  · rw [deleteT_ok]
    dsimp only
    intro t ht
    simpa using (List.mem_filter.1 ht).2
  · intro hex
    have hf : (s.templates.filter fun t => t.name ≠ name) = s.templates :=
      List.filter_eq_self.2 fun a ha => by
        simpa using fun han => hex ⟨a, ha, han⟩
    rw [deleteT_ok, hf]
  · have hf2 : ((s.templates.filter fun t => t.name ≠ name).filter
        fun t => t.name ≠ name) = s.templates.filter fun t => t.name ≠ name :=
      List.filter_eq_self.2 fun a ha => (List.mem_filter.1 ha).2
    rw [deleteT_ok name s]
    dsimp only
    rw [deleteT_ok, hf2]

theorem delete_removes_absent_noop_idempotent_witness :
    (∀ t ∈ (deleteT true "a" ⟨[⟨1, "a", "x", 1⟩], [], 2⟩).1.templates,
      t.name ≠ "a") ∧
    (deleteT true "b" ⟨[⟨1, "a", "x", 1⟩], [], 2⟩ =
      (⟨[⟨1, "a", "x", 1⟩], [], 2⟩,
        .ok (sortDesc (⟨[⟨1, "a", "x", 1⟩], [], 2⟩ : Store).templates))) ∧
    deleteT true "b" (deleteT true "b" ⟨[⟨1, "a", "x", 1⟩], [], 2⟩).1 =
      deleteT true "b" ⟨[⟨1, "a", "x", 1⟩], [], 2⟩ :=
  ⟨(delete_removes_absent_noop_idempotent ⟨[⟨1, "a", "x", 1⟩], [], 2⟩ "a").1,
   (delete_removes_absent_noop_idempotent ⟨[⟨1, "a", "x", 1⟩], [], 2⟩ "b").2.1
     (by decide),
   (delete_removes_absent_noop_idempotent ⟨[⟨1, "a", "x", 1⟩], [], 2⟩ "b").2.2⟩

/-! ### Config lookup behaviour -/

lemma find?_value_update (k : String) (v : Option String)
    (m : List ConfigEntry) :
    ((m.map fun e => if e.key = k then { e with value := v } else e).find?
        (fun e => e.key = k)).map (·.value) =
      (m.find? (fun e => e.key = k)).map (fun _ => v) := by
  induction m with
  | nil => rfl
  | cons e m ih =>
    rw [List.map_cons]
    by_cases h : e.key = k
    · rw [if_pos h, List.find?_cons_of_pos _ (by simp [h]),
        List.find?_cons_of_pos _ (by simp [h])]
      rfl
    · rw [if_neg h, List.find?_cons_of_neg _ (by simp [h]),
        List.find?_cons_of_neg _ (by simp [h])]
      exact ih

lemma find?_other_update (k k' : String) (v : Option String)
    (m : List ConfigEntry) (hne : k' ≠ k) :
    (m.map fun e => if e.key = k then { e with value := v } else e).find?
        (fun e => e.key = k') =
      m.find? (fun e => e.key = k') := by
  induction m with
  | nil => rfl
  | cons e m ih =>
    rw [List.map_cons]
    by_cases h : e.key = k
    · have h' : ¬ e.key = k' := fun hc => hne (hc ▸ h)
      rw [if_pos h,
        List.find?_cons_of_neg _ (by simp [h]; exact fun hc => hne hc.symm),
        List.find?_cons_of_neg _ (by simp [h']), ih]
    · rw [if_neg h]
      by_cases h2 : e.key = k'
      · rw [List.find?_cons_of_pos _ (by simp [h2]),
          List.find?_cons_of_pos _ (by simp [h2])]
      · rw [List.find?_cons_of_neg _ (by simp [h2]),
          List.find?_cons_of_neg _ (by simp [h2]), ih]

lemma configLookup_setConfig_self (s : Store) (k : String) (v : Option String)
    (hk : k ≠ "") : configLookup (setConfig true k v s).1 k = some v := by
  by_cases hex : s.hasKey k
  · rw [setConfig_update k v s hk hex]
    unfold configLookup
    dsimp only
    rw [← List.map_reverse, find?_value_update]
    obtain ⟨e, he, hek⟩ := hex
    have : (s.config.reverse.find? fun e => e.key = k).isSome :=
      List.find?_isSome.2 ⟨e, List.mem_reverse.2 he, by simp [hek]⟩
    obtain ⟨u, hu⟩ := Option.isSome_iff_exists.1 this
    rw [hu]
    rfl
  · rw [setConfig_insert k v s hk hex]
    unfold configLookup
    dsimp only
    rw [List.reverse_append, List.reverse_singleton, List.singleton_append,
      List.find?_cons_of_pos _ (by simp)]
    rfl

lemma configLookup_setConfig_other (s : Store) (k k' : String)
    (v : Option String) (hk : k ≠ "") (hne : k' ≠ k) :
    configLookup (setConfig true k v s).1 k' = configLookup s k' := by
  by_cases hex : s.hasKey k
  · rw [setConfig_update k v s hk hex]
    unfold configLookup
    dsimp only
    rw [← List.map_reverse, find?_other_update k k' v _ hne]
  · rw [setConfig_insert k v s hk hex]
    unfold configLookup
    dsimp only
    have hkk : ¬ ({ key := k, value := v } : ConfigEntry).key = k' :=
      fun hc => hne hc.symm
    rw [List.reverse_append, List.reverse_singleton, List.singleton_append,
      List.find?_cons_of_neg _ (by simpa using hkk)]

/-- C7: after `SetConfig(k, v)` the mapping `GetConfig()` builds sends `k`
to `v`; a later `SetConfig(k, v')` changes only the value at `k`, leaving
the lookup of every other key exactly as it was. -/
theorem setConfig_point_update_frame (s : Store) (k : String)
    (v v' : Option String) (hk : k ≠ "") :
    configLookup (setConfig true k v s).1 k = some v ∧
    (∀ k', k' ≠ k →
      configLookup (setConfig true k v' (setConfig true k v s).1).1 k' =
        configLookup (setConfig true k v s).1 k') :=
  ⟨configLookup_setConfig_self s k v hk,
   fun k' hne =>
     configLookup_setConfig_other (setConfig true k v s).1 k k' v' hk hne⟩

theorem setConfig_point_update_frame_witness :
    configLookup
        (setConfig true "systemPrompt" (some "X") Store.empty).1
        "systemPrompt" = some (some "X") ∧
    configLookup
        (setConfig true "systemPrompt" (some "Y")
          (setConfig true "systemPrompt" (some "X") Store.empty).1).1
        "knowledge" =
      configLookup (setConfig true "systemPrompt" (some "X") Store.empty).1
        "knowledge" :=
  ⟨(setConfig_point_update_frame Store.empty "systemPrompt" (some "X")
      (some "Y") (by decide)).1,
   (setConfig_point_update_frame Store.empty "systemPrompt" (some "X")
      (some "Y") (by decide)).2 "knowledge" (by decide)⟩

/-- C10: `SetConfig` with a non-empty key and no value stores the entry
with a SQL `NULL` value, and the mapping `GetConfig()` builds then has
the key present and bound to null — distinct both from an absent key and
from the empty string. -/
theorem setConfig_missing_value_stores_null (s : Store) (k : String)
    (hk : k ≠ "") :
    configLookup (setConfig true k none s).1 k = some none ∧
    (some (none : Option String) ≠ none ∧
      some (none : Option String) ≠ some (some "")) :=
  ⟨configLookup_setConfig_self s k none hk, by simp, by simp⟩

theorem setConfig_missing_value_stores_null_witness :
    configLookup (setConfig true "systemPrompt" none Store.empty).1
        "systemPrompt" = some none ∧
    (some (none : Option String) ≠ none ∧
      some (none : Option String) ≠ some (some "")) :=
  setConfig_missing_value_stores_null Store.empty "systemPrompt" (by decide)

lemma deleteT_nextId (name : String) (s : Store) :
    (deleteT true name s).1.nextId = s.nextId := rfl

/-- C8: `Upsert` answers `validationError` exactly when the name is empty
and mutates nothing in that case; `SetConfig` likewise requires a
non-empty key (the value may be the empty string or absent); and whenever
the underlying store cannot be reached, each operation surfaces
`storeUnavailable` with the state unchanged. -/
theorem validation_and_store_unavailable
    (s : Store) (avail : Bool) (now : Nat)
    (name data oldName newName k : String) (v : Option String) :
    ((upsert avail now name data s).2 = .error .validationError ↔ name = "") ∧
    (upsert avail now "" data s).1 = s ∧
    ((setConfig avail k v s).2 = .error .validationError ↔ k = "") ∧
    (setConfig avail "" v s).1 = s ∧
    (k ≠ "" → (setConfig true k v s).2 = .ok (k, v)) ∧
    (name ≠ "" →
      upsert false now name data s = (s, .error .storeUnavailable)) ∧
    (k ≠ "" → setConfig false k v s = (s, .error .storeUnavailable)) ∧
    rename false oldName newName data s = (s, .error .storeUnavailable) ∧
    deleteT false name s = (s, .error .storeUnavailable) ∧
    listT false s = (s, .error .storeUnavailable) ∧
    getConfig false s = (s, .error .storeUnavailable) := by
  refine ⟨?_, ?_, ?_, ?_, ?_, ?_, ?_, ?_, ?_, ?_, ?_⟩
  · by_cases hn : name = ""
    · simp [upsert, hn]
    · cases avail <;> simp [upsert, hn]
  · simp [upsert]
  · by_cases hk : k = ""
    · simp [setConfig, hk]
    · cases avail <;> simp [setConfig, hk]
  · simp [setConfig]
  · intro hk
    simp [setConfig, hk]
  · intro hn
    simp [upsert, hn]
  · intro hk
    simp [setConfig, hk]
  · simp [rename]
  · rfl
  · rfl
  · rfl

theorem validation_and_store_unavailable_witness :
    (upsert true 1 "" "d" Store.empty).2 = .error .validationError ∧
    (upsert true 1 "" "d" Store.empty).1 = Store.empty ∧
    (setConfig true "systemPrompt" (some "") Store.empty).2 =
      .ok ("systemPrompt", some "") ∧
    upsert false 1 "n" "d" Store.empty =
      (Store.empty, .error .storeUnavailable) := by
  have H := validation_and_store_unavailable Store.empty true 1 "" "d"
    "o" "n" "systemPrompt" (some "")
  have H2 := validation_and_store_unavailable Store.empty false 1 "n" "d"
    "o" "n" "systemPrompt" (some "")
  exact ⟨H.1.mpr rfl, H.2.1, H.2.2.2.2.1 (by decide),
    H2.2.2.2.2.2.1 (by decide)⟩

/-- C9: every template row carries a numeric surrogate id; an upsert that
hits an existing name and a rename both leave the row's id (and
createdAt) unchanged, while deleting a name and re-creating it yields the
current serial value as id — necessarily different from the deleted
row's id in any reachable state. -/
theorem surrogate_id_stability :
    (∀ (s : Store) (now : Nat) (name data : String) (t : Template),
      t ∈ s.templates → t.name = name → name ≠ "" →
      { t with data := data } ∈ (upsert true now name data s).1.templates) ∧
    (∀ (s : Store) (oldName newName data : String) (t : Template),
      t ∈ s.templates → t.name = oldName →
      (newName = "" ∨ newName = oldName ∨ ¬ s.existsName newName) →
      { t with name := finalNameOf oldName newName, data := data }
        ∈ (rename true oldName newName data s).1.templates) ∧
    (∀ s : Store, Reachable s → ∀ t ∈ s.templates, ∀ (now : Nat) (d : String),
      t.name ≠ "" →
      ∃ u ∈ (upsert true now t.name d (deleteT true t.name s).1).1.templates,
        u.name = t.name ∧ u.id = s.nextId ∧ u.id ≠ t.id) := by
  refine ⟨?_, ?_, ?_⟩
  · intro s now name data t ht htn hn
    rw [upsert_conflict now name data s hn ⟨t, ht, htn⟩]
    dsimp only
    exact List.mem_map.2 ⟨t, ht, by rw [if_pos htn]⟩
  · intro s oldName newName data t ht htn hsc
    rw [rename_ok oldName newName data s ⟨t, ht, htn⟩ hsc]
    dsimp only
    exact List.mem_map.2 ⟨t, ht, by rw [if_pos htn]⟩
  · intro s hreach t ht now d hn
    have hid := (reachable_invariants s hreach).2 t ht
    have hdel : ¬ (deleteT true t.name s).1.existsName t.name := by
      rw [deleteT_ok]
      rintro ⟨u, hu, hun⟩
      have h2 : u.name ≠ t.name := by simpa using (List.mem_filter.1 hu).2
      exact h2 hun
    rw [upsert_insert now t.name d _ hn hdel]
    dsimp only
    refine ⟨_, List.mem_append_right _ (List.mem_singleton.2 rfl),
      rfl, ?_, ?_⟩
    · exact deleteT_nextId t.name s
    · rw [deleteT_nextId t.name s]
      exact ne_of_gt hid

theorem surrogate_id_stability_witness :
    ({ id := 1, name := "a", data := "y", createdAt := 5 } : Template) ∈
      (upsert true 9 "a" "y" (upsert true 5 "a" "x" Store.empty).1).1.templates ∧
    ({ id := 1, name := finalNameOf "a" "b", data := "z", createdAt := 5 } :
        Template) ∈
      (rename true "a" "b" "z" (upsert true 5 "a" "x" Store.empty).1).1.templates ∧
    ∃ u ∈ (upsert true 9 "a" "z"
        (deleteT true "a" (upsert true 5 "a" "x" Store.empty).1).1).1.templates,
      u.name = "a" ∧ u.id = (upsert true 5 "a" "x" Store.empty).1.nextId ∧
      u.id ≠ 1 := by
  refine ⟨?_, ?_, ?_⟩
  · exact surrogate_id_stability.1 (upsert true 5 "a" "x" Store.empty).1 9 "a" "y"
      ⟨1, "a", "x", 5⟩ (by decide) rfl (by decide)
  · exact surrogate_id_stability.2.1 (upsert true 5 "a" "x" Store.empty).1
      "a" "b" "z" ⟨1, "a", "x", 5⟩ (by decide) rfl
      (Or.inr (Or.inr (by decide)))
  · exact surrogate_id_stability.2.2 (upsert true 5 "a" "x" Store.empty).1
      (Reachable.upsertStep true 5 "a" "x" Store.empty Reachable.init)
      ⟨1, "a", "x", 5⟩ (by decide) 9 "z" (by decide)

end WebSkyling
